import Mathlib

/-!
Verification development for the municipal-document crawling and
segmentation pipeline (crawler, document crawler/downloader, PDF
segmenter with metadata extraction, vectorizer).

The JavaScript sources are shallowly embedded: text is `List Char`,
JavaScript regular expressions are embedded by a small backtracking
matcher (`RE` below) whose priority order (leftmost position first,
left alternative first, greedy quantifiers with backtracking) mirrors
the JavaScript engine for the pattern subset the sources use, and
effectful collaborators (HTTP fetch, file writes, the embedding and
vector-store clients) are passed as explicit oracles.  Properties that
the sources decide by character classes (`\d`, `\w`, `\s`, `[A-Z]`,
the JS whitespace set used by `String.prototype.trim`) are modelled on
their ASCII range, which covers every input the theorems below use.
-/

namespace SB369

/-- JS `\s` / `String.prototype.trim` whitespace, ASCII range. -/
def wsB (c : Char) : Bool :=
  c.toNat = 32 || c.toNat = 9 || c.toNat = 10 || c.toNat = 13 || c.toNat = 11 || c.toNat = 12

/-- JS `\d`. -/
def digitB (c : Char) : Bool := 48 ≤ c.toNat && c.toNat ≤ 57

/-- JS `[A-Z]`. -/
def upperB (c : Char) : Bool := 65 ≤ c.toNat && c.toNat ≤ 90

/-- JS `[a-z]`. -/
def lowerB (c : Char) : Bool := 97 ≤ c.toNat && c.toNat ≤ 122

/-- JS `\w` (ASCII word character). -/
def wordB (c : Char) : Bool := upperB c || lowerB c || digitB c || c.toNat = 95

/-- The newline character class (`\n` in a pattern). -/
def nlB (c : Char) : Bool := c.toNat = 10

/-- JS `.` without the `s` flag: any character except a newline. -/
def dotB (c : Char) : Bool := !(c.toNat = 10)

/-- Exactly the character `c`. -/
def chB (c : Char) (x : Char) : Bool := x.toNat = c.toNat

/-- ASCII lower-casing, as used by JS `toLowerCase` on the inputs at hand. -/
def lowerChar (c : Char) : Char :=
  if 65 ≤ c.toNat ∧ c.toNat ≤ 90 then Char.ofNat (c.toNat + 32) else c

/-- Case-insensitive character match (`i` flag), ASCII. -/
def chIB (c : Char) (x : Char) : Bool := (lowerChar x).toNat = (lowerChar c).toNat

/--
Regular-expression abstract syntax for the pattern subset the sources
use: epsilon, single-character classes, sequencing, alternation, and
greedy quantifiers (`*`, `+`, `{lo,hi}`) over single-character classes.
-/
inductive RE where
  | eps : RE
  | cls : (Char → Bool) → RE
  | seq : RE → RE → RE
  | alt : RE → RE → RE
  | star : (Char → Bool) → RE
  | rep : (Char → Bool) → Nat → Nat → RE

/-- Length of the maximal prefix of `cs` whose characters satisfy `p`. -/
def countWhile (p : Char → Bool) : List Char → Nat
  | [] => 0
  | c :: t => if p c then countWhile p t + 1 else 0

/--
Greedy count selection for a quantified character class: try consuming
`n` characters, then `n - 1`, ..., refusing counts below `lo`.  The
continuation `k` receives the remaining input.
-/
def tryCounts {α : Type} (lo : Nat) (k : List Char → Option α) (cs : List Char) : Nat → Option α
  | 0 => if lo = 0 then k cs else none
  | n + 1 =>
    if n + 1 < lo then none
    else
      match k (cs.drop (n + 1)) with
      | some r => some r
      | none => tryCounts lo k cs n

/--
Backtracking matcher in continuation-passing style.  `matchRE r cs k`
tries to match `r` against a prefix of `cs` and passes the remainder to
`k`; alternatives are explored in the JS priority order (left
alternative first, greedy quantifiers longest first) and the first
success wins.
-/
def matchRE {α : Type} : RE → List Char → (List Char → Option α) → Option α
  | .eps, cs, k => k cs
  | .cls p, cs, k =>
    match cs with
    | [] => none
    | c :: t => if p c then k t else none
  | .seq a b, cs, k => matchRE a cs (fun cs' => matchRE b cs' k)
  | .alt a b, cs, k =>
    match matchRE a cs k with
    | some r => some r
    | none => matchRE b cs k
  | .star p, cs, k => tryCounts 0 k cs (countWhile p cs)
  | .rep p lo hi, cs, k => tryCounts lo k cs (Nat.min hi (countWhile p cs))

/--
Leftmost match: `searchRE r cs i` scans positions left to right
(mirroring a JS regex search) and returns `(index, length)` of the
first match, with positions offset by `i`.
-/
def searchRE (r : RE) : List Char → Nat → Option (Nat × Nat)
  | cs, i =>
    match matchRE r cs (fun rest => some rest) with
    | some rest => some (i, cs.length - rest.length)
    | none =>
      match cs with
      | [] => none
      | _ :: t => searchRE r t (i + 1)

/--
All non-overlapping matches, advancing past each match (by one position
for an empty match), as JS `String.prototype.matchAll` does.  `fuel`
bounds the recursion; it is instantiated with `cs.length + 1`.
-/
def allMatchesAux (r : RE) : Nat → List Char → Nat → List (Nat × Nat)
  | 0, _, _ => []
  | fuel + 1, cs, base =>
    match searchRE r cs 0 with
    | none => []
    | some (j, l) =>
      let adv := j + Nat.max l 1
      (base + j, l) :: allMatchesAux r fuel (cs.drop adv) (base + adv)

/-- `[...text.matchAll(r)]` as a list of `(index, length)` pairs. -/
def allMatches (r : RE) (cs : List Char) : List (Nat × Nat) :=
  allMatchesAux r (cs.length + 1) cs 0

/--
Search for the regex `pre·(grp)·post` (one capture group) and return
the text captured by the group in the first (leftmost, JS-priority)
overall match, as `text.match(pattern)[1]` does.
-/
def capAt {α : Type} (pre grp post : RE) (cs : List Char) (k : List Char → Option α) : Option α :=
  matchRE pre cs (fun r1 =>
    matchRE grp r1 (fun r2 =>
      matchRE post r2 (fun _ => k (r1.take (r1.length - r2.length)))))

/-- Leftmost capture search (see `capAt`). -/
def capSearch (pre grp post : RE) : List Char → Option (List Char)
  | [] => capAt pre grp post [] (fun g => some g)
  | c :: t =>
    match capAt pre grp post (c :: t) (fun g => some g) with
    | some g => some g
    | none => capSearch pre grp post t

/--
Leftmost position whose match of `r` extends exactly to the end of the
input (the `$` anchor): returns the start index, scanning positions
left to right from offset `i`.
-/
def searchEndAnch (r : RE) : List Char → Nat → Option Nat
  | cs, i =>
    match matchRE r cs (fun rest => if rest.isEmpty then some () else none) with
    | some _ => some i
    | none =>
      match cs with
      | [] => none
      | _ :: t => searchEndAnch r t (i + 1)

/-- Literal string (case-sensitive). -/
def lit (s : String) : RE :=
  s.toList.foldr (fun c r => RE.seq (RE.cls (chB c)) r) RE.eps

/-- Literal string under the `i` flag (case-insensitive, ASCII). -/
def litI (s : String) : RE :=
  s.toList.foldr (fun c r => RE.seq (RE.cls (chIB c)) r) RE.eps

/-- `p+` for a character class. -/
def plusC (p : Char → Bool) : RE := RE.seq (RE.cls p) (RE.star p)

/-- Remove trailing JS whitespace. -/
def dropEndWs (cs : List Char) : List Char :=
  ((cs.reverse).dropWhile wsB).reverse

/-- JS `String.prototype.trim` on a character list. -/
def trimL (cs : List Char) : List Char :=
  dropEndWs (cs.dropWhile wsB)

/-- JS `String.prototype.trim`. -/
def trimS (s : String) : String := String.mk (trimL s.toList)

/-!
## Segmenter (`splitIntoChunks`, src/unnamed/part_003)

`splitIntoChunks(text, document, metadata)` first tries five structural
section patterns in order; the first pattern with more than one match
that yields at least one section of at least `MIN_CHUNK_SIZE = 100`
characters wins.  Otherwise it falls back to accumulating blank-line
paragraphs up to `MAX_CHUNK_SIZE = 1000` characters.  Each section
becomes a chunk whose title is its first line.  The chunk `id` (a
random UUID) and the merged-in document metadata are not modelled; no
claim refers to them.
-/

/-- `/\n\s*(?:SECTION|Section|PART|Part|ARTICLE|Article)\s+\d+/g` -/
def secPat1 : RE :=
  .seq (.cls nlB) (.seq (.star wsB)
    (.seq (.alt (lit "SECTION") (.alt (lit "Section") (.alt (lit "PART")
      (.alt (lit "Part") (.alt (lit "ARTICLE") (lit "Article"))))))
      (.seq (plusC wsB) (plusC digitB))))

/-- `/\n\s*\d+\.\d+\s+[A-Z]/g` -/
def secPat2 : RE :=
  .seq (.cls nlB) (.seq (.star wsB) (.seq (plusC digitB)
    (.seq (.cls (chB '.')) (.seq (plusC digitB) (.seq (plusC wsB) (.cls upperB))))))

/-- `/\n\s*\d+\.\s+[A-Z]/g` -/
def secPat3 : RE :=
  .seq (.cls nlB) (.seq (.star wsB) (.seq (plusC digitB)
    (.seq (.cls (chB '.')) (.seq (plusC wsB) (.cls upperB)))))

/-- `/\n\s*[A-Z][A-Z\s]+\n/g` -/
def secPat4 : RE :=
  .seq (.cls nlB) (.seq (.star wsB) (.seq (.cls upperB)
    (.seq (plusC (fun c => upperB c || wsB c)) (.cls nlB))))

/-- `/\n\s*[A-Z][a-z].*:\s*\n/g` -/
def secPat5 : RE :=
  .seq (.cls nlB) (.seq (.star wsB) (.seq (.cls upperB) (.seq (.cls lowerB)
    (.seq (.star dotB) (.seq (.cls (chB ':')) (.seq (.star wsB) (.cls nlB)))))))

/-- The section-pattern cascade, in source order. -/
def sectionPatterns : List RE := [secPat1, secPat2, secPat3, secPat4, secPat5]

/-- The paragraph separator `/\n\s*\n/` used by the fallback split. -/
def paraSep : RE := .seq (.cls nlB) (.seq (.star wsB) (.cls nlB))

/-- The exclusive end of the current section: the next match's start
index, or the end of the text. -/
def nextBound (text : List Char) : List (Nat × Nat) → Nat
  | [] => text.length
  | m :: _ => m.1

/--
Sections from the match list of one pattern: section `i` spans from
match `i` to match `i+1` (or the end of the text), is trimmed, and is
kept only when at least 100 characters long.
-/
def buildSections (text : List Char) : List (Nat × Nat) → List (List Char)
  | [] => []
  | m :: rest =>
    let sec := trimL ((text.drop m.1).take (nextBound text rest - m.1))
    (if 100 ≤ sec.length then [sec] else []) ++ buildSections text rest

/--
The pattern cascade: the first pattern with more than one match whose
qualifying sections are non-empty wins; otherwise the result is `[]`
(and the caller falls back to paragraph accumulation).
-/
def trySectionPatterns (text : List Char) : List RE → List (List Char)
  | [] => []
  | p :: ps =>
    let ms := allMatches p text
    if 1 < ms.length then
      let secs := buildSections text ms
      if 0 < secs.length then secs else trySectionPatterns text ps
    else trySectionPatterns text ps

/--
Pieces of `text` between the separator matches `ms` (absolute
`(index, length)` pairs), starting at offset `pos`: JS
`String.prototype.split` with a regex separator.
-/
def piecesFrom (text : List Char) (pos : Nat) : List (Nat × Nat) → List (List Char)
  | [] => [text.drop pos]
  | (s, l) :: rest => (text.drop pos).take (s - pos) :: piecesFrom text (s + l) rest

/-- `text.split(/\n\s*\n/)`. -/
def paragraphsOf (text : List Char) : List (List Char) :=
  piecesFrom text 0 (allMatches paraSep text)

/--
Greedy paragraph accumulation (the fallback path of `splitIntoChunks`):
skip empty paragraphs; when adding the next trimmed paragraph would
push the buffer past 1000 characters, flush the buffer (only if it is
at least 100 characters) and restart from that paragraph; flush the
final buffer when it is at least 100 characters.
-/
def accumulate : List (List Char) → List Char → List (List Char)
  | [], cur => if 100 ≤ cur.length then [trimL cur] else []
  | para :: ps, cur =>
    let t := trimL para
    if t.length = 0 then accumulate ps cur
    else if 1000 < cur.length + t.length then
      (if 100 ≤ cur.length then [trimL cur] else []) ++ accumulate ps t
    else accumulate ps (cur ++ '\n' :: '\n' :: t)

/--
The `"\n\n"`-join of the trimmed pieces of a list, which is the shape
of buffer the paragraph accumulator builds (each accepted paragraph is
trimmed and separated by a literal `"\n\n"`).
-/
def nlJoin : List (List Char) → List Char
  | [] => []
  | [q] => trimL q
  | q :: qs => trimL q ++ '\n' :: '\n' :: nlJoin qs

/-- A produced chunk: content, section title, 1-based section index. -/
structure PChunk where
  content : List Char
  sectionTitle : List Char
  sectionIndex : Nat
deriving DecidableEq, Repr

/-- First line of a section (`sectionText.split('\n')[0]`). -/
def firstLine (cs : List Char) : List Char :=
  cs.takeWhile (fun c => !(c.toNat = 10))

/--
Chunk from a section: the title is the trimmed first line, or
`"Section {n}"` when that is empty.
-/
def chunkOfSection (idx : Nat) (sec : List Char) : PChunk :=
  let t0 := trimL (firstLine sec)
  { content := sec
    sectionTitle := if t0.length = 0 then ("Section " ++ Nat.repr (idx + 1)).toList else t0
    sectionIndex := idx + 1 }

/-- Enumerated chunk construction (`sections.forEach((s, index) => ...)`). -/
def chunksFrom : Nat → List (List Char) → List PChunk
  | _, [] => []
  | i, s :: ss => chunkOfSection i s :: chunksFrom (i + 1) ss

/-- `splitIntoChunks` (src/unnamed/part_003, lines 205–291). -/
def splitIntoChunks (text : List Char) : List PChunk :=
  let secs := trySectionPatterns text sectionPatterns
  let sections := if secs.length ≤ 1 then accumulate (paragraphsOf text) [] else secs
  chunksFrom 0 sections

/-!
## Metadata extractor (`extractMetadata`, src/unnamed/part_003, lines 74–130)

Each field is decided by an ordered pattern list: the first pattern
with a match wins and its first capture group is the field value.  The
date cascade and the tag derivation (`extractTags`) are not embedded
here: no claim refers to them.
-/

/-- A capturing pattern `pre·(grp)·post`, all with the `i` flag. -/
structure CapPat where
  pre : RE
  grp : RE
  post : RE

/-- The capture group `(\w+\s+\d{1,2},?\s+\d{4})` shared by the amendment patterns. -/
def dateGrp : RE :=
  .seq (plusC wordB) (.seq (plusC wsB) (.seq (.rep digitB 1 2)
    (.seq (.rep (chB ',') 0 1) (.seq (plusC wsB) (.rep digitB 4 4)))))

/-- The capture group `(\d+-\d+|\d+)` shared by the bylaw-number patterns. -/
def numGrp : RE :=
  .alt (.seq (plusC digitB) (.seq (.cls (chB '-')) (plusC digitB))) (plusC digitB)

/-- `amendedPatterns`, in source order. -/
def amendedPatterns : List CapPat :=
  [ ⟨.seq (litI "amended") (.seq (plusC wsB) (.seq (litI "on") (plusC wsB))), dateGrp, .eps⟩
  , ⟨.seq (litI "last") (.seq (plusC wsB) (.seq (litI "amended") (plusC wsB))), dateGrp, .eps⟩
  , ⟨.seq (litI "amended") (plusC wsB), dateGrp, .eps⟩
  , ⟨.seq (litI "revised") (plusC wsB), dateGrp, .eps⟩ ]

/-- `bylawNumberPatterns`, in source order. -/
def bylawNumberPatterns : List CapPat :=
  [ ⟨.seq (litI "bylaw") (.seq (plusC wsB) (.seq (litI "no")
      (.seq (.cls (chB '.')) (plusC wsB)))), numGrp, .eps⟩
  , ⟨.seq (litI "bylaw") (plusC wsB), numGrp, .eps⟩
  , ⟨.seq (litI "bylaw") (.seq (plusC wsB) (.seq (litI "number") (plusC wsB))), numGrp, .eps⟩ ]

/-- `for (const pattern of patterns) { const m = text.match(pattern); if (m) ... break }`. -/
def firstCapture : List CapPat → List Char → Option (List Char)
  | [], _ => none
  | p :: ps, cs =>
    match capSearch p.pre p.grp p.post cs with
    | some g => some g
    | none => firstCapture ps cs

/-- `metadata.lastAmended` as computed by `extractMetadata`. -/
def extractLastAmended (text : List Char) : Option (List Char) :=
  firstCapture amendedPatterns text

/-- `metadata.bylawNumber` as computed by `extractMetadata`. -/
def extractBylawNumber (text : List Char) : Option (List Char) :=
  firstCapture bylawNumberPatterns text

/-!
## Crawl orchestrator (`crawlMunicipalWebsite`, src/src/lib/crawler.js)

The loop owns the frontier, the visited set and the page counter.  The
body of one iteration after the dequeue — fetch, content-type
dispatch, and the per-URL error recording — is abstracted as a
`Handle` oracle receiving the dequeued URL, the (already updated)
visited set and the remaining frontier; it returns the new frontier,
documents and errors.  The source handlers (`processHtmlPage`,
`processPdfDocument`, `processSitemap`) only read the visited set and
never add to it, and the counter is owned by the loop, which the
`Handle` type enforces.
-/

/-- `{url, error}` entries of an error list. -/
structure UrlError where
  url : String
  error : String
deriving DecidableEq, Repr

/-- A crawler document descriptor (the `id` UUID is not modelled). -/
structure CrawlDoc where
  title : String
  url : String
  department : Option String := none
  documentType : String := "other"
  fileType : String := "pdf"
  date : Option String := none
  localPath : Option String := none
  content : Option String := none
deriving DecidableEq, Repr

/-- Crawl loop state. -/
structure CrawlState where
  frontier : List String
  visited : List String
  pageCount : Nat
  documents : List CrawlDoc
  errors : List UrlError
deriving DecidableEq, Repr

/--
One iteration body after the dequeue (crawler.js lines 49–80):
`Handle url visitedAfterAdd frontierAfterShift documents errors`
returns the updated frontier, documents and errors.
-/
def Handle : Type :=
  String → List String → List String → List CrawlDoc → List UrlError →
    List String × List CrawlDoc × List UrlError

/-- `MAX_PAGES` (crawler.js line 36). -/
def MAX_PAGES : Nat := 50

/--
The crawl loop (crawler.js lines 39–81) over the mutable loop state
(frontier, visited set, page counter, documents, errors): stop when
the frontier is empty or `pageCount` reaches `MAX_PAGES`; a dequeued
URL already in the visited set is skipped without counting; otherwise
it is marked visited, counted, and processed by the handler.
-/
def crawlLoop (h : Handle) :
    List String → List String → Nat → List CrawlDoc → List UrlError → CrawlState
  | [], v, n, d, e => ⟨[], v, n, d, e⟩
  | url :: rest, v, n, d, e =>
    if 50 ≤ n then ⟨url :: rest, v, n, d, e⟩
    else if v.contains url then crawlLoop h rest v n d e
    else
      let r := h url (url :: v) rest d e
      crawlLoop h r.1 (url :: v) (n + 1) r.2.1 r.2.2
termination_by f _ n _ _ => (50 - n, f.length)
decreasing_by
  · apply Prod.Lex.right
    simp
  · apply Prod.Lex.left
    omega

/-- `crawlMunicipalWebsite` (crawler.js lines 21–89): seeds and loop. -/
def crawlMunicipalWebsite (h : Handle) (baseUrl : String) : CrawlState :=
  crawlLoop h
    [ baseUrl ++ "/EN/main/town/bylaws-all.html"
    , baseUrl ++ "/EN/main/town/documents.html"
    , baseUrl ++ "/EN/main/town/documents/policies.html"
    , baseUrl ++ "/EN/main/town/documents/reportsplans.html"
    , baseUrl ++ "/EN/main/town/documents/publications.html" ]
    [] 0 [] []

/-!
## Sitemap handler (`processSitemap`, crawler.js lines 249–270)

The XML parse is abstracted: a `SitemapDoc` carries the trimmed-source
text of the `url > loc` and `sitemap > loc` elements in document
order.  Eligible `url > loc` entries are pushed to the **back** of the
frontier; `sitemap > loc` references are unshifted onto the front.
-/

/-- JS `String.prototype.startsWith`. -/
def jsStartsWith (s pre : String) : Bool := pre.toList.isPrefixOf s.toList

/-- Parsed sitemap content: `url > loc` texts and `sitemap > loc` texts. -/
structure SitemapDoc where
  urlLocs : List String
  sitemapLocs : List String
deriving DecidableEq, Repr

/-- `processSitemap`, acting on the frontier. -/
def processSitemap (baseUrl : String) (visited : List String) (sm : SitemapDoc)
    (frontier : List String) : List String :=
  let f1 := sm.urlLocs.foldl (fun f loc =>
    let u := trimS loc
    if jsStartsWith u baseUrl && !(visited.contains u) && !(f.contains u)
    then f ++ [u] else f) frontier
  sm.sitemapLocs.foldl (fun f loc =>
    let u := trimS loc
    if !(visited.contains u) && !(f.contains u)
    then u :: f else f) f1

/-!
## Document library crawler (src/src/lib/documentCrawler.js)

`extractPdfLinks` is embedded over the parsed `.document-section ul li`
items (link href, link text, category text); the cheerio HTML parse
itself is abstracted.  The descriptor `id` UUID is not modelled.
-/

/-- One parsed `.document-section ul li` item. -/
structure LibItem where
  linkHref : Option String
  linkText : String
  categoryText : String
deriving DecidableEq, Repr

/-- A document-library descriptor, with the download-outcome fields
`downloadDocuments` may add (absent JS properties are `none`/`false`). -/
structure PdfDoc where
  title : String
  url : String
  category : String := ""
  documentType : String := "other"
  fileSizeKB : Option Nat := none
  fileType : String := "pdf"
  localPath : Option String := none
  skipped : Bool := false
  reason : Option String := none
  error : Option String := none
deriving DecidableEq, Repr

/-- Is `sub` a contiguous infix of `l`? -/
def infixB (sub : List Char) : List Char → Bool
  | [] => sub.isEmpty
  | c :: t => sub.isPrefixOf (c :: t) || infixB sub t

/-- JS `String.prototype.includes`. -/
def jsIncludes (s sub : String) : Bool := infixB sub.toList s.toList

/-- The `$`-anchored title cleanup regex `/\[PDF.*\]$/` (case-sensitive). -/
def pdfTagRE : RE :=
  .seq (.cls (chB '[')) (.seq (lit "PDF") (.seq (.star dotB) (.cls (chB ']'))))

/-- `linkText.replace(/\[PDF.*\]$/, '')`. -/
def replacePdfTag (cs : List Char) : List Char :=
  match searchEndAnch pdfTagRE cs 0 with
  | some i => cs.take i
  | none => cs

/-- `/\[PDF\s*-\s*(\d+)\s*KB\]/i`, split around its capture group. -/
def sizePre : RE :=
  .seq (.cls (chB '[')) (.seq (litI "PDF") (.seq (.star wsB)
    (.seq (.cls (chB '-')) (.star wsB))))

/-- Capture group of the size regex. -/
def sizeGrp : RE := plusC digitB

/-- Tail of the size regex after its capture group. -/
def sizePost : RE := .seq (.star wsB) (.seq (litI "KB") (.cls (chB ']')))

/-- `parseInt(digits, 10)` on a captured digit string. -/
def digitsToNat (cs : List Char) : Nat :=
  cs.foldl (fun n c => n * 10 + (c.toNat - 48)) 0

/-- `extractPdfLinks` (documentCrawler.js lines 41–89) over parsed items. -/
def extractPdfLinks (items : List LibItem) : List PdfDoc :=
  items.foldr (fun it acc =>
    match it.linkHref with
    | none => acc
    | some url =>
      if (".pdf".toList).isSuffixOf (url.toList.map lowerChar) then
        let title := trimS (String.mk (replacePdfTag it.linkText.toList))
        let category := trimS it.categoryText
        let sizeKB := (capSearch sizePre sizeGrp sizePost it.linkText.toList).map digitsToNat
        let docType :=
          if jsIncludes category "Policies" then "policy"
          else if jsIncludes category "Reports, Maps & Plans" then "report"
          else if jsIncludes category "Applications & Forms" then "form"
          else if jsIncludes category "Publications & Information" then "publication"
          else "other"
        { title := title, url := url, category := category, documentType := docType,
          fileSizeKB := sizeKB, fileType := "pdf" } :: acc
      else acc) []

/-- `if (!documents.some(d => d.url === doc.url)) documents.push(doc)`. -/
def addIfNewUrl (docs : List PdfDoc) (d : PdfDoc) : List PdfDoc :=
  if docs.any (fun x => x.url == d.url) then docs else docs ++ [d]

/--
The document aggregation of `crawlDocumentLibrary` (documentCrawler.js
lines 95–157) on successfully fetched pages: the main page's
descriptors are pushed wholesale; each category page's descriptors are
added one at a time, skipping urls already present.
-/
def crawlDocumentLibraryDocs (mainItems : List LibItem)
    (catPages : List (List LibItem)) : List PdfDoc :=
  catPages.foldl (fun docs page => (extractPdfLinks page).foldl addIfNewUrl docs)
    (extractPdfLinks mainItems)

/-!
## Document downloader (`downloadDocuments`, documentCrawler.js lines 164–243)

The HTTP fetch (and the file write it feeds) is an oracle
`String → Except String Unit`; `mkPath` abstracts the generated
download path (sanitised title plus a random UUID suffix under the
download directory).  Each result triple also records, as an explicit
observation, the list of URLs for which a fetch was attempted.
-/

/-- `document.fileSizeKB && document.fileSizeKB > 20000` (JS truthiness:
a missing size is falsy, and `0 > 20000` is false, so `none` is false). -/
def oversizeB (d : PdfDoc) : Bool :=
  match d.fileSizeKB with
  | some s => decide (20000 < s)
  | none => false

/-- Per-descriptor processing: the body of the `batch.map` callback. -/
def downloadOne (fetchDoc : String → Except String Unit) (mkPath : PdfDoc → String)
    (d : PdfDoc) : PdfDoc × List UrlError × List String :=
  if oversizeB d then
    ({ d with skipped := true, reason := some "File too large" }, [], [])
  else
    match fetchDoc d.url with
    | .ok _ => ({ d with localPath := some (mkPath d) }, [], [d.url])
    | .error msg => ({ d with error := some msg }, [⟨d.url, msg⟩], [d.url])

/-- One batch (`Promise.all(batch.map(...))`), results in input order. -/
def downloadBatch (fetchDoc : String → Except String Unit) (mkPath : PdfDoc → String) :
    List PdfDoc → List PdfDoc × List UrlError × List String
  | [] => ([], [], [])
  | d :: ds =>
    let r := downloadOne fetchDoc mkPath d
    let rest := downloadBatch fetchDoc mkPath ds
    (r.1 :: rest.1, r.2.1 ++ rest.2.1, r.2.2 ++ rest.2.2)

/-- `BATCH_SIZE` for downloads. -/
def DL_BATCH_SIZE : Nat := 5

/-- `downloadDocuments`: batches of five, concatenated in order. -/
def downloadDocuments (fetchDoc : String → Except String Unit) (mkPath : PdfDoc → String) :
    List PdfDoc → List PdfDoc × List UrlError × List String
  | [] => ([], [], [])
  | d :: ds =>
    let b := downloadBatch fetchDoc mkPath ((d :: ds).take DL_BATCH_SIZE)
    let r := downloadDocuments fetchDoc mkPath ((d :: ds).drop DL_BATCH_SIZE)
    (b.1 ++ r.1, b.2.1 ++ r.2.1, b.2.2 ++ r.2.2)
termination_by ds => ds.length
decreasing_by
  simp [DL_BATCH_SIZE]
  omega

/-!
## Vectorizer (src/src/lib/vectorizer.js)

Clients and provider calls are oracles: `client` is the (possibly
uninitialised) OpenAI client, `callEmb` the embedding API call,
`upsert` the Pinecone upsert (the metadata payload it stores is not
modelled; no claim refers to it).
-/

/-- `generateEmbedding` (vectorizer.js lines 57–76). -/
def generateEmbedding (client : Option Unit)
    (callEmb : String → Except String (List Float)) (text : String) : List Float :=
  match client with
  | none => List.replicate 1536 (0 : Float)
  | some _ =>
    match callEmb text with
    | .ok v => v
    | .error _ => List.replicate 1536 (0 : Float)

/-- A chunk as the vectorizer consumes it. -/
structure VChunk where
  id : String
  content : String
deriving DecidableEq, Repr

/-- One vectorization batch: per-chunk embed + upsert, failures isolated. -/
def vectorizeBatch (client : Option Unit) (callEmb : String → Except String (List Float))
    (upsert : String → List Float → Except String Unit) :
    List VChunk → Nat × List (String × String)
  | [] => (0, [])
  | c :: cs =>
    let rest := vectorizeBatch client callEmb upsert cs
    match upsert c.id (generateEmbedding client callEmb c.content) with
    | .ok _ => (rest.1 + 1, rest.2)
    | .error e => (rest.1, (c.id, e) :: rest.2)

/-- `BATCH_SIZE` for vectorization. -/
def VEC_BATCH_SIZE : Nat := 10

/-- The batch loop of `vectorizeChunks` (batches of ten, in order). -/
def vectorizeLoop (client : Option Unit) (callEmb : String → Except String (List Float))
    (upsert : String → List Float → Except String Unit) :
    List VChunk → Nat × List (String × String)
  | [] => (0, [])
  | c :: cs =>
    let b := vectorizeBatch client callEmb upsert ((c :: cs).take VEC_BATCH_SIZE)
    let r := vectorizeLoop client callEmb upsert ((c :: cs).drop VEC_BATCH_SIZE)
    (b.1 + r.1, b.2 ++ r.2)
termination_by cs => cs.length
decreasing_by
  simp [VEC_BATCH_SIZE]
  omega

/-- `vectorizeChunks` (vectorizer.js lines 83–169): a missing Pinecone
client yields the global error; otherwise the batches run. -/
def vectorizeChunks (pinecone : Option Unit) (client : Option Unit)
    (callEmb : String → Except String (List Float))
    (upsert : String → List Float → Except String Unit)
    (chunks : List VChunk) : Nat × List (String × String) :=
  match pinecone with
  | none => (0, [("global", "Pinecone client not initialized. Check your API key and environment.")])
  | some _ => vectorizeLoop client callEmb upsert chunks

/-!
## Basic lemmas: trimming
-/

theorem dropWhile_head?_false (p : Char → Bool) :
    ∀ (cs : List Char) (c : Char), (cs.dropWhile p).head? = some c → p c = false := by
  intro cs
  induction cs with
  | nil => intro c hc; simp at hc
  | cons a t ih =>
    intro c hc
    by_cases hp : p a
    · rw [List.dropWhile_cons, if_pos hp] at hc
      exact ih c hc
    · rw [List.dropWhile_cons, if_neg hp] at hc
      simp at hc
      rw [← hc]
      simpa using hp

theorem dropWhile_eq_self_of_head? (p : Char → Bool) (cs : List Char)
    (h : ∀ c, cs.head? = some c → p c = false) : cs.dropWhile p = cs := by
  cases cs with
  | nil => rfl
  | cons a t => rw [List.dropWhile_cons, if_neg (by simp [h a rfl])]

theorem dropWhile_idem (p : Char → Bool) (cs : List Char) :
    (cs.dropWhile p).dropWhile p = cs.dropWhile p :=
  dropWhile_eq_self_of_head? p _ (fun c hc => dropWhile_head?_false p cs c hc)

theorem dropEndWs_pre (cs : List Char) : dropEndWs cs <+: cs := by
  have h : (cs.reverse.dropWhile wsB) <:+ cs.reverse := List.dropWhile_suffix _
  have h2 := List.reverse_prefix.mpr h
  rwa [List.reverse_reverse] at h2

theorem dropEndWs_idem (cs : List Char) : dropEndWs (dropEndWs cs) = dropEndWs cs := by
  simp [dropEndWs, List.reverse_reverse, dropWhile_idem]

theorem dropEndWs_head? (cs : List Char) (h : dropEndWs cs ≠ []) :
    (dropEndWs cs).head? = cs.head? := by
  obtain ⟨t, ht⟩ := dropEndWs_pre cs
  cases hd : dropEndWs cs with
  | nil => exact absurd hd h
  | cons d ds =>
    rw [hd] at ht
    rw [← ht]
    simp

theorem trimL_idem (cs : List Char) : trimL (trimL cs) = trimL cs := by
  unfold trimL
  have h1 : (dropEndWs (cs.dropWhile wsB)).dropWhile wsB = dropEndWs (cs.dropWhile wsB) := by
    apply dropWhile_eq_self_of_head?
    intro c hc
    have hne : dropEndWs (cs.dropWhile wsB) ≠ [] := by
      intro he
      rw [he] at hc
      simp at hc
    rw [dropEndWs_head? _ hne] at hc
    exact dropWhile_head?_false wsB cs c hc
  rw [h1, dropEndWs_idem]

theorem trimL_cons_ws (c : Char) (cs : List Char) (h : wsB c = true) :
    trimL (c :: cs) = trimL cs := by
  simp [trimL, List.dropWhile_cons, h]

theorem trimL_inf (cs : List Char) : trimL cs <:+: cs :=
  ((dropEndWs_pre _).isInfix).trans (List.dropWhile_suffix _).isInfix

theorem mem_of_mem_trimL {a : Char} {cs : List Char} (h : a ∈ trimL cs) : a ∈ cs :=
  (trimL_inf cs).subset h

/-!
## Basic lemmas: the regex engine on newline-free text

Every structural section pattern and the paragraph separator start
with a mandatory `\n`; on newline-free text they have no match.
-/

theorem matchRE_cls_seq_none {α : Type} (p : Char → Bool) (r : RE) (cs : List Char)
    (k : List Char → Option α) (h : ∀ c ∈ cs, p c = false) :
    matchRE (RE.seq (RE.cls p) r) cs k = none := by
  cases cs with
  | nil => rfl
  | cons c t => simp [matchRE, h c (by simp)]

theorem searchRE_cls_seq_none (p : Char → Bool) (r : RE) (cs : List Char)
    (h : ∀ c ∈ cs, p c = false) : ∀ i, searchRE (RE.seq (RE.cls p) r) cs i = none := by
  induction cs with
  | nil =>
    intro i
    rw [searchRE, matchRE_cls_seq_none p r [] _ (by simp)]
  | cons c t ih =>
    intro i
    rw [searchRE, matchRE_cls_seq_none p r (c :: t) _ h]
    exact ih (fun x hx => h x (List.mem_cons_of_mem _ hx)) (i + 1)

theorem allMatches_eq_nil (r : RE) (cs : List Char) (h : searchRE r cs 0 = none) :
    allMatches r cs = [] := by
  unfold allMatches allMatchesAux
  simp [h]

theorem trySectionPatterns_nl_free (text : List Char) (h : ∀ c ∈ text, nlB c = false) :
    trySectionPatterns text sectionPatterns = [] := by
  have h1 : allMatches secPat1 text = [] :=
    allMatches_eq_nil _ _ (searchRE_cls_seq_none nlB _ text h 0)
  have h2 : allMatches secPat2 text = [] :=
    allMatches_eq_nil _ _ (searchRE_cls_seq_none nlB _ text h 0)
  have h3 : allMatches secPat3 text = [] :=
    allMatches_eq_nil _ _ (searchRE_cls_seq_none nlB _ text h 0)
  have h4 : allMatches secPat4 text = [] :=
    allMatches_eq_nil _ _ (searchRE_cls_seq_none nlB _ text h 0)
  have h5 : allMatches secPat5 text = [] :=
    allMatches_eq_nil _ _ (searchRE_cls_seq_none nlB _ text h 0)
  simp [trySectionPatterns, sectionPatterns, h1, h2, h3, h4, h5]

theorem paragraphsOf_nl_free (text : List Char) (h : ∀ c ∈ text, nlB c = false) :
    paragraphsOf text = [text] := by
  have hs : allMatches paraSep text = [] :=
    allMatches_eq_nil _ _ (searchRE_cls_seq_none nlB _ text h 0)
  simp [paragraphsOf, hs, piecesFrom]

theorem accumulate_single (text : List Char) (h98 : 98 ≤ (trimL text).length) :
    accumulate [text] [] = [trimL text] := by
  have ht0 : ¬ (trimL text).length = 0 := by omega
  by_cases hbig : 1000 < (trimL text).length
  · have h100 : 100 ≤ (trimL text).length := by omega
    simp [accumulate, ht0, hbig, h100, trimL_idem]
  · have hlen : 100 ≤ ('\n' :: '\n' :: trimL text).length := by
      simp
      omega
    simp [accumulate, ht0, hbig, hlen, trimL_cons_ws _ _ (by decide : wsB '\n' = true),
      trimL_idem]
    omega

theorem chunksFrom_map_content :
    ∀ (i : Nat) (ss : List (List Char)), (chunksFrom i ss).map PChunk.content = ss
  | _, [] => rfl
  | i, s :: ss => by
    simp [chunksFrom, chunkOfSection, chunksFrom_map_content (i + 1) ss]

theorem splitIntoChunks_single (text : List Char) (hnl : ∀ c ∈ text, nlB c = false)
    (h98 : 98 ≤ (trimL text).length) :
    (splitIntoChunks text).map PChunk.content = [trimL text] := by
  unfold splitIntoChunks
  rw [trySectionPatterns_nl_free text hnl, paragraphsOf_nl_free text hnl]
  simp [accumulate_single text h98, chunksFrom_map_content]

/-!
## Claim C1
-/

/--
**C1, counterexample.**  The claim says `splitIntoChunks` returns a
non-empty chunk sequence for every non-empty input.  The non-empty
input `"hi"` yields zero chunks: the paragraph fallback only flushes a
final buffer of at least 100 characters, so any input shorter than
`minChunkSize` produces no chunk at all.
-/
theorem C1_counterexample :
    "hi".toList ≠ [] ∧ splitIntoChunks "hi".toList = [] := by
  constructor
  · decide
  · decide

/--
**C1 (amended).**  For every single-paragraph input (no newline
character) whose trimmed length is at least 98, `splitIntoChunks`
returns a non-empty sequence — exactly one chunk carrying the whole
trimmed text; inputs shorter than the minimum chunk size may yield
zero chunks.
-/
theorem C1_segment_nonempty (text : List Char) (hnl : ∀ c ∈ text, nlB c = false)
    (h98 : 98 ≤ (trimL text).length) :
    splitIntoChunks text ≠ [] ∧
      (splitIntoChunks text).map PChunk.content = [trimL text] := by
  have h := splitIntoChunks_single text hnl h98
  refine ⟨?_, h⟩
  intro he
  rw [he] at h
  simp at h

/-- Witness for `C1_segment_nonempty` at 100 letters `a`. -/
theorem C1_witness :
    ((∀ c ∈ List.replicate 100 'a', nlB c = false) ∧
        98 ≤ (trimL (List.replicate 100 'a')).length) ∧
      splitIntoChunks (List.replicate 100 'a') ≠ [] ∧
        (splitIntoChunks (List.replicate 100 'a')).map PChunk.content
          = [trimL (List.replicate 100 'a')] :=
  ⟨⟨by decide, by decide⟩, C1_segment_nonempty _ (by decide) (by decide)⟩

/-!
## Claim C7
-/

set_option maxRecDepth 20000 in
/--
**C7, counterexample.**  The claim says re-segmenting the first chunk
of any segmentation returns exactly one chunk equal to it.  For the
text below, the cascade first splits at the two `\nSECTION n` markers,
but the first chunk still contains two all-caps heading lines, so
re-segmenting it matches the all-caps pattern and returns two chunks,
not one.
-/
theorem C7_counterexample :
    (splitIntoChunks
        (((splitIntoChunks
              ("\nSECTION 1 hdr\nHEADING AA\n".toList ++ List.replicate 100 'a' ++
                "\nHEADING BB\n".toList ++ List.replicate 100 'a' ++
                "\nSECTION 2 ".toList ++ List.replicate 110 'a')).map PChunk.content).headD
          [])).length ≠ 1 := by
  decide

/--
**C7 (amended).**  Idempotence holds on single-paragraph input: for a
newline-free text of trimmed length at least 98, segmentation yields
exactly one chunk holding the trimmed text, and re-segmenting that
chunk's content again yields exactly one chunk with the same content.
In general (section-split chunks) idempotence fails.
-/
theorem C7_segment_idem (text : List Char) (hnl : ∀ c ∈ text, nlB c = false)
    (h98 : 98 ≤ (trimL text).length) :
    (splitIntoChunks text).map PChunk.content = [trimL text] ∧
      (splitIntoChunks (trimL text)).map PChunk.content = [trimL text] := by
  have h1 := splitIntoChunks_single text hnl h98
  have hnl2 : ∀ c ∈ trimL text, nlB c = false := fun c hc => hnl c (mem_of_mem_trimL hc)
  have h98b : 98 ≤ (trimL (trimL text)).length := by
    rw [trimL_idem]
    exact h98
  have h2 := splitIntoChunks_single (trimL text) hnl2 h98b
  rw [trimL_idem] at h2
  exact ⟨h1, h2⟩

/-- Witness for `C7_segment_idem` at 120 letters `b`. -/
theorem C7_witness :
    ((∀ c ∈ List.replicate 120 'b', nlB c = false) ∧
        98 ≤ (trimL (List.replicate 120 'b')).length) ∧
      (splitIntoChunks (List.replicate 120 'b')).map PChunk.content
          = [trimL (List.replicate 120 'b')] ∧
        (splitIntoChunks (trimL (List.replicate 120 'b'))).map PChunk.content
          = [trimL (List.replicate 120 'b')] :=
  ⟨⟨by decide, by decide⟩, C7_segment_idem _ (by decide) (by decide)⟩

/-!
## Claim C6
-/

set_option maxRecDepth 20000 in
/--
**C6, counterexample.**  The claim quantifies over *any* text
containing the substrings "Bylaw No. 2023-45" and "amended on
November 15, 2022"; but the pattern cascades return the *first* match
in the text, so an earlier bylaw number ("12") and an earlier
amendment date ("January 1, 2000") win instead.
-/
theorem C6_counterexample :
    ("Bylaw No. 2023-45".toList <:+:
        "Bylaw No. 12 was amended on January 1, 2000. Bylaw No. 2023-45 was amended on November 15, 2022.".toList) ∧
      ("amended on November 15, 2022".toList <:+:
        "Bylaw No. 12 was amended on January 1, 2000. Bylaw No. 2023-45 was amended on November 15, 2022.".toList) ∧
      extractBylawNumber
          "Bylaw No. 12 was amended on January 1, 2000. Bylaw No. 2023-45 was amended on November 15, 2022.".toList
        = some "12".toList ∧
      extractLastAmended
          "Bylaw No. 12 was amended on January 1, 2000. Bylaw No. 2023-45 was amended on November 15, 2022.".toList
        = some "January 1, 2000".toList := by
  refine ⟨by decide, by decide, by decide, by decide⟩

set_option maxRecDepth 20000 in
/--
**C6 (amended).**  When the given substrings contain the *first*
matches of the respective pattern cascades — as in the text below —
`extractMetadata` returns the bylaw number "2023-45" and the
last-amended date "November 15, 2022".
-/
theorem C6_metadata_scenario :
    extractBylawNumber
        "Town of View Royal Bylaw No. 2023-45, amended on November 15, 2022, regulates parking.".toList
      = some "2023-45".toList ∧
    extractLastAmended
        "Town of View Royal Bylaw No. 2023-45, amended on November 15, 2022, regulates parking.".toList
      = some "November 15, 2022".toList := by
  refine ⟨by decide, by decide⟩

/-!
## Claim C4
-/

/--
**C4, counterexample.**  The claim says fresh same-domain
`url > loc` sitemap entries are inserted at the *front* of the
frontier.  In the code they are pushed to the *back*
(`urlsToVisit.push`); only `sitemap > loc` references are unshifted.
With a pre-existing frontier entry, the two new URLs end up behind it.
-/
theorem C4_counterexample :
    processSitemap "https://ex.com" []
        ⟨["https://ex.com/b.html", "https://ex.com/c.html"], []⟩
        ["https://ex.com/a.html"]
      = ["https://ex.com/a.html", "https://ex.com/b.html", "https://ex.com/c.html"] ∧
    ¬ ((processSitemap "https://ex.com" []
          ⟨["https://ex.com/b.html", "https://ex.com/c.html"], []⟩
          ["https://ex.com/a.html"]).take 2
        = ["https://ex.com/b.html", "https://ex.com/c.html"]) := by
  refine ⟨by decide, by decide⟩

/--
**C4 (amended).**  Two fresh, same-domain `url > loc` entries of a
sitemap with no nested sitemap references are *appended to the back*
of the frontier, in document order; the pre-existing frontier entries
keep their positions ahead of them.
-/
theorem C4_sitemap_appends_back (baseUrl u1 u2 : String) (visited frontier : List String)
    (ht1 : trimS u1 = u1) (ht2 : trimS u2 = u2)
    (hs1 : jsStartsWith u1 baseUrl = true) (hs2 : jsStartsWith u2 baseUrl = true)
    (hv1 : visited.contains u1 = false) (hv2 : visited.contains u2 = false)
    (hf1 : frontier.contains u1 = false) (hf2 : frontier.contains u2 = false)
    (hne : (u2 == u1) = false) :
    processSitemap baseUrl visited ⟨[u1, u2], []⟩ frontier = frontier ++ [u1, u2] := by
  unfold processSitemap
  simp only [List.foldl_cons, List.foldl_nil, ht1, ht2, hs1, hs2, hv1, hv2, hf1, hf2,
    Bool.not_false, Bool.and_self, if_true, Bool.true_and]
  have hf2' : u2 ∉ frontier := by simpa using hf2
  have hne' : u2 ≠ u1 := by simpa using hne
  simp [hf2', hne', List.append_assoc]

/-- Witness for `C4_sitemap_appends_back` at a concrete sitemap. -/
theorem C4_witness :
    ((trimS "https://ex.com/p1.html" = "https://ex.com/p1.html") ∧
        (trimS "https://ex.com/p2.html" = "https://ex.com/p2.html") ∧
        jsStartsWith "https://ex.com/p1.html" "https://ex.com" = true ∧
        jsStartsWith "https://ex.com/p2.html" "https://ex.com" = true ∧
        (["https://ex.com/seen.html"].contains "https://ex.com/p1.html") = false ∧
        (["https://ex.com/seen.html"].contains "https://ex.com/p2.html") = false ∧
        (["https://ex.com/q.html"].contains "https://ex.com/p1.html") = false ∧
        (["https://ex.com/q.html"].contains "https://ex.com/p2.html") = false ∧
        ("https://ex.com/p2.html" == "https://ex.com/p1.html") = false) ∧
      processSitemap "https://ex.com" ["https://ex.com/seen.html"]
          ⟨["https://ex.com/p1.html", "https://ex.com/p2.html"], []⟩
          ["https://ex.com/q.html"]
        = ["https://ex.com/q.html"] ++ ["https://ex.com/p1.html", "https://ex.com/p2.html"] :=
  ⟨⟨by decide, by decide, by decide, by decide, by decide, by decide, by decide, by decide,
      by decide⟩,
    C4_sitemap_appends_back _ _ _ _ _ (by decide) (by decide) (by decide) (by decide)
      (by decide) (by decide) (by decide) (by decide) (by decide)⟩

/-!
## Claim C5
-/

/--
**C5, counterexample.**  The claim says no crawl result contains two
descriptors with equal `url`.  `crawlDocumentLibrary` pushes the main
page's descriptors wholesale — `extractPdfLinks` does not deduplicate
within a page — so a PDF link repeated on the main document-library
page yields two descriptors with the same url.
-/
theorem C5_counterexample :
    ((crawlDocumentLibraryDocs
          [⟨some "https://ex.com/b.pdf", "Zoning Bylaw", "Bylaws"⟩,
            ⟨some "https://ex.com/b.pdf", "Zoning Bylaw", "Bylaws"⟩] []).map PdfDoc.url
        = ["https://ex.com/b.pdf", "https://ex.com/b.pdf"]) ∧
      ¬ ((crawlDocumentLibraryDocs
            [⟨some "https://ex.com/b.pdf", "Zoning Bylaw", "Bylaws"⟩,
              ⟨some "https://ex.com/b.pdf", "Zoning Bylaw", "Bylaws"⟩] []).map PdfDoc.url).Nodup := by
  refine ⟨by decide, by decide⟩

theorem addIfNewUrl_nodup (docs : List PdfDoc) (d : PdfDoc)
    (h : (docs.map PdfDoc.url).Nodup) : ((addIfNewUrl docs d).map PdfDoc.url).Nodup := by
  unfold addIfNewUrl
  by_cases hany : docs.any (fun x => x.url == d.url)
  · simpa [hany] using h
  · have hnot : d.url ∉ docs.map PdfDoc.url := by
      intro hmem
      obtain ⟨x, hx, hxu⟩ := List.mem_map.mp hmem
      have hx2 : (x.url == d.url) = true := by
        rw [hxu]
        simp
      exact hany (List.any_eq_true.mpr ⟨x, hx, hx2⟩)
    simp only [hany, if_false, Bool.false_eq_true, List.map_append, List.map_cons,
      List.map_nil]
    exact List.Nodup.append h (List.nodup_singleton _)
      (by
        intro a ha hb
        simp at hb
        rw [hb] at ha
        exact hnot ha)

theorem foldl_addIfNewUrl_nodup (ds : List PdfDoc) :
    ∀ docs : List PdfDoc, (docs.map PdfDoc.url).Nodup →
      ((ds.foldl addIfNewUrl docs).map PdfDoc.url).Nodup := by
  induction ds with
  | nil => intro docs h; simpa using h
  | cons d ds ih =>
    intro docs h
    rw [List.foldl_cons]
    exact ih _ (addIfNewUrl_nodup docs d h)

theorem pages_foldl_nodup (pages : List (List LibItem)) :
    ∀ docs : List PdfDoc, (docs.map PdfDoc.url).Nodup →
      ((pages.foldl (fun docs page => (extractPdfLinks page).foldl addIfNewUrl docs)
          docs).map PdfDoc.url).Nodup := by
  induction pages with
  | nil => intro docs h; simpa using h
  | cons page ps ih =>
    intro docs h
    rw [List.foldl_cons]
    exact ih _ (foldl_addIfNewUrl_nodup (extractPdfLinks page) docs h)

/--
**C5 (amended).**  If the main document-library page's extracted
descriptors already have pairwise-distinct urls, then the aggregated
`crawlDocumentLibrary` documents have pairwise-distinct urls: the
category-page additions are deduplicated against the accumulated list.
Duplicates can arise only from repeated links on the main page itself
(and, in `crawlMunicipalWebsite`, from a page-self descriptor).
-/
theorem C5_docs_nodup (mainItems : List LibItem) (catPages : List (List LibItem))
    (h : ((extractPdfLinks mainItems).map PdfDoc.url).Nodup) :
    ((crawlDocumentLibraryDocs mainItems catPages).map PdfDoc.url).Nodup := by
  unfold crawlDocumentLibraryDocs
  exact pages_foldl_nodup catPages _ h

/-- Witness for `C5_docs_nodup` at one main item and one category page. -/
theorem C5_witness :
    (((extractPdfLinks [⟨some "https://ex.com/a.pdf", "Plan A", "Reports"⟩]).map PdfDoc.url).Nodup) ∧
      ((crawlDocumentLibraryDocs [⟨some "https://ex.com/a.pdf", "Plan A", "Reports"⟩]
            [[⟨some "https://ex.com/a.pdf", "Plan A", "Reports"⟩,
              ⟨some "https://ex.com/b.pdf", "Plan B", "Reports"⟩]]).map PdfDoc.url).Nodup :=
  ⟨by decide, C5_docs_nodup _ _ (by decide)⟩

/-!
## Claim C2
-/

theorem crawlLoop_inv (h : Handle) :
    ∀ (f v : List String) (n : Nat) (d : List CrawlDoc) (e : List UrlError),
      v.length ≤ n → n ≤ 50 →
      (crawlLoop h f v n d e).visited.length ≤ (crawlLoop h f v n d e).pageCount ∧
        (crawlLoop h f v n d e).pageCount ≤ 50 := by
  intro f v n d e
  induction f, v, n, d, e using crawlLoop.induct h with
  | case1 v n d e =>
    intro hv hb
    rw [crawlLoop]
    exact ⟨hv, hb⟩
  | case2 url rest v n d e h50 =>
    intro hv hb
    rw [crawlLoop, if_pos h50]
    exact ⟨hv, hb⟩
  | case3 url rest v n d e h50 hvis ih =>
    intro hv hb
    rw [crawlLoop, if_neg h50, if_pos hvis]
    exact ih hv hb
  | case4 url rest v n d e h50 hvis r ih =>
    intro hv hb
    rw [crawlLoop, if_neg h50, if_neg hvis]
    exact ih (by simpa using hv) (by omega)

/--
**C2.**  The visited set at termination of `crawlMunicipalWebsite` has
at most `MAX_PAGES = 50` entries, and the loop is a fixpoint as soon
as the frontier is empty or the processed-page counter has reached the
budget, even if the frontier still holds URLs.
-/
theorem C2_page_budget (h : Handle) (baseUrl : String) :
    (crawlMunicipalWebsite h baseUrl).visited.length ≤ 50 ∧
      ∀ (f v : List String) (n : Nat) (d : List CrawlDoc) (e : List UrlError),
        f = [] ∨ 50 ≤ n → crawlLoop h f v n d e = ⟨f, v, n, d, e⟩ := by
  constructor
  · have hinv := crawlLoop_inv h
      [ baseUrl ++ "/EN/main/town/bylaws-all.html"
      , baseUrl ++ "/EN/main/town/documents.html"
      , baseUrl ++ "/EN/main/town/documents/policies.html"
      , baseUrl ++ "/EN/main/town/documents/reportsplans.html"
      , baseUrl ++ "/EN/main/town/documents/publications.html" ]
      [] 0 [] [] (by simp) (by omega)
    calc (crawlMunicipalWebsite h baseUrl).visited.length
        ≤ (crawlMunicipalWebsite h baseUrl).pageCount := hinv.1
      _ ≤ 50 := hinv.2
  · intro f v n d e hst
    rcases hst with hf | h50
    · rw [hf, crawlLoop]
    · cases f with
      | nil => rw [crawlLoop]
      | cons u rest => rw [crawlLoop, if_pos h50]

/-- Witness for `C2_page_budget` at a pass-through handler. -/
theorem C2_witness :
    (crawlMunicipalWebsite (fun _ _ f d e => (f, d, e)) "https://town.example").visited.length
        ≤ 50 ∧
      crawlLoop (fun _ _ f d e => (f, d, e)) [] ["https://town.example/a.html"] 7 []
          [] = ⟨[], ["https://town.example/a.html"], 7, [], []⟩ :=
  ⟨(C2_page_budget (fun _ _ f d e => (f, d, e)) "https://town.example").1,
    (C2_page_budget (fun _ _ f d e => (f, d, e)) "https://town.example").2 _ _ _ _ _
      (Or.inl rfl)⟩

/-!
## Claims C8 and C10: the downloader
-/

theorem downloadBatch_spec (f : String → Except String Unit) (mk : PdfDoc → String) :
    ∀ ds : List PdfDoc,
      downloadBatch f mk ds =
        (ds.map (fun d => (downloadOne f mk d).1),
          (ds.map (fun d => (downloadOne f mk d).2.1)).flatten,
          (ds.map (fun d => (downloadOne f mk d).2.2)).flatten) := by
  intro ds
  induction ds with
  | nil => rfl
  | cons d t ih => simp [downloadBatch, ih]

theorem downloadDocuments_spec (f : String → Except String Unit) (mk : PdfDoc → String) :
    ∀ (n : Nat) (ds : List PdfDoc), ds.length ≤ n →
      downloadDocuments f mk ds =
        (ds.map (fun d => (downloadOne f mk d).1),
          (ds.map (fun d => (downloadOne f mk d).2.1)).flatten,
          (ds.map (fun d => (downloadOne f mk d).2.2)).flatten) := by
  intro n
  induction n with
  | zero =>
    intro ds h
    have hnil : ds = [] := List.length_eq_zero.mp (Nat.le_zero.mp h)
    subst hnil
    rw [downloadDocuments]
    rfl
  | succ n ih =>
    intro ds h
    cases ds with
    | nil =>
      rw [downloadDocuments]
      rfl
    | cons d t =>
      rw [downloadDocuments, downloadBatch_spec,
        ih ((d :: t).drop DL_BATCH_SIZE)
          (by
            simp only [DL_BATCH_SIZE, List.length_drop, List.length_cons] at h ⊢
            omega)]
      conv_rhs => rw [← List.take_append_drop DL_BATCH_SIZE (d :: t)]
      simp only [List.map_append, List.flatten_append]

theorem downloadDocuments_eq (f : String → Except String Unit) (mk : PdfDoc → String)
    (ds : List PdfDoc) :
    downloadDocuments f mk ds =
      (ds.map (fun d => (downloadOne f mk d).1),
        (ds.map (fun d => (downloadOne f mk d).2.1)).flatten,
        (ds.map (fun d => (downloadOne f mk d).2.2)).flatten) :=
  downloadDocuments_spec f mk ds.length ds (Nat.le_refl _)

theorem downloadOne_oversize (f : String → Except String Unit) (mk : PdfDoc → String)
    (d : PdfDoc) (h : oversizeB d = true) :
    downloadOne f mk d = ({ d with skipped := true, reason := some "File too large" }, [], []) := by
  simp [downloadOne, h]

theorem downloadOne_attempts_url (f : String → Except String Unit) (mk : PdfDoc → String)
    (d : PdfDoc) : ∀ x ∈ (downloadOne f mk d).2.2, x = d.url := by
  intro x hx
  unfold downloadOne at hx
  by_cases hov : oversizeB d
  · simp [hov] at hx
  · cases hfd : f d.url with
    | ok u => simp [hov, hfd] at hx; exact hx
    | error m => simp [hov, hfd] at hx; exact hx

theorem downloadOne_errors_url (f : String → Except String Unit) (mk : PdfDoc → String)
    (d : PdfDoc) : ∀ e ∈ (downloadOne f mk d).2.1, e.url = d.url := by
  intro e he
  unfold downloadOne at he
  by_cases hov : oversizeB d
  · simp [hov] at he
  · cases hfd : f d.url with
    | ok u => simp [hov, hfd] at he
    | error m =>
      simp [hov, hfd] at he
      rw [he]

/--
**C8.**  A descriptor whose declared `fileSizeKB` exceeds 20,000 is
returned marked `skipped: true` with reason "File too large"; no fetch
of its URL is attempted and no entry for it lands in the errors list
(descriptor URLs are assumed pairwise distinct, so the URL observation
is unambiguous).
-/
theorem C8_skip_large (f : String → Except String Unit) (mk : PdfDoc → String)
    (docs : List PdfDoc) (i : Nat) (s : Nat) (hi : i < docs.length)
    (hsz : docs[i].fileSizeKB = some s) (hbig : 20000 < s)
    (hnodup : (docs.map PdfDoc.url).Nodup) :
    (downloadDocuments f mk docs).1[i]? =
        some { docs[i] with skipped := true, reason := some "File too large" } ∧
      docs[i].url ∉ (downloadDocuments f mk docs).2.2 ∧
      ∀ e ∈ (downloadDocuments f mk docs).2.1, e.url ≠ docs[i].url := by
  have hov : oversizeB docs[i] = true := by
    simp [oversizeB, hsz]
    omega
  have hidx : ∀ j (hj : j < docs.length), docs[j].url = docs[i].url → j = i := by
    intro j hj hurl
    have hj2 : j < (docs.map PdfDoc.url).length := by simpa using hj
    have hi2 : i < (docs.map PdfDoc.url).length := by simpa using hi
    have h1 : (docs.map PdfDoc.url)[j] = (docs.map PdfDoc.url)[i] := by
      simpa using hurl
    exact (List.Nodup.getElem_inj_iff hnodup).mp h1
  rw [downloadDocuments_eq]
  refine ⟨?_, ?_, ?_⟩
  · rw [List.getElem?_map, List.getElem?_eq_getElem hi]
    simp [downloadOne_oversize f mk _ hov]
  · intro hmem
    rw [List.mem_flatten] at hmem
    obtain ⟨l, hl, hxl⟩ := hmem
    rw [List.mem_map] at hl
    obtain ⟨d, hd, rfl⟩ := hl
    obtain ⟨j, hj, rfl⟩ := List.mem_iff_getElem.mp hd
    have hurl := downloadOne_attempts_url f mk docs[j] _ hxl
    have hji := hidx j hj hurl.symm
    subst hji
    rw [downloadOne_oversize f mk _ hov] at hxl
    simp at hxl
  · intro e hmem
    rw [List.mem_flatten] at hmem
    obtain ⟨l, hl, hel⟩ := hmem
    rw [List.mem_map] at hl
    obtain ⟨d, hd, rfl⟩ := hl
    obtain ⟨j, hj, rfl⟩ := List.mem_iff_getElem.mp hd
    intro heq
    have hurl := downloadOne_errors_url f mk docs[j] _ hel
    have hji := hidx j hj (by rw [← hurl, heq])
    subst hji
    rw [downloadOne_oversize f mk _ hov] at hel
    simp at hel

/-- Witness for `C8_skip_large` at a two-descriptor batch. -/
theorem C8_witness :
    ((0 : Nat) < 2 ∧
        ([{ title := "Big", url := "https://ex.com/big.pdf", fileSizeKB := some 25000 },
            { title := "Small", url := "https://ex.com/small.pdf",
              fileSizeKB := some 5 }] : List PdfDoc)[0].fileSizeKB = some 25000 ∧
        20000 < 25000 ∧
        (([{ title := "Big", url := "https://ex.com/big.pdf", fileSizeKB := some 25000 },
            { title := "Small", url := "https://ex.com/small.pdf",
              fileSizeKB := some 5 }] : List PdfDoc).map PdfDoc.url).Nodup) ∧
      (downloadDocuments (fun _ => Except.ok ()) (fun _ => "p")
            [{ title := "Big", url := "https://ex.com/big.pdf", fileSizeKB := some 25000 },
              { title := "Small", url := "https://ex.com/small.pdf",
                fileSizeKB := some 5 }]).1[0]? =
          some { title := "Big", url := "https://ex.com/big.pdf", fileSizeKB := some 25000,
                  skipped := true, reason := some "File too large" } ∧
        ("https://ex.com/big.pdf" : String) ∉
          (downloadDocuments (fun _ => Except.ok ()) (fun _ => "p")
            [{ title := "Big", url := "https://ex.com/big.pdf", fileSizeKB := some 25000 },
              { title := "Small", url := "https://ex.com/small.pdf",
                fileSizeKB := some 5 }]).2.2 ∧
        ∀ e ∈ (downloadDocuments (fun _ => Except.ok ()) (fun _ => "p")
            [{ title := "Big", url := "https://ex.com/big.pdf", fileSizeKB := some 25000 },
              { title := "Small", url := "https://ex.com/small.pdf",
                fileSizeKB := some 5 }]).2.1, e.url ≠ "https://ex.com/big.pdf" :=
  ⟨⟨by decide, by decide, by decide, by decide⟩,
    C8_skip_large (fun _ => Except.ok ()) (fun _ => "p") _ 0 25000 (by decide) (by decide)
      (by decide) (by decide)⟩

/--
**C10.**  `downloadDocuments` returns one output descriptor per input
descriptor, in the same order, and each output is its input extended
by exactly one outcome: the skip marker when the declared size exceeds
the limit, `localPath` on fetch success, or `error` on fetch failure.
-/
theorem C10_download_shape (f : String → Except String Unit) (mk : PdfDoc → String)
    (docs : List PdfDoc) :
    (downloadDocuments f mk docs).1.length = docs.length ∧
      ∀ i (hi : i < docs.length),
        ∃ d', (downloadDocuments f mk docs).1[i]? = some d' ∧
          ((oversizeB docs[i] = true ∧
              d' = { docs[i] with skipped := true, reason := some "File too large" }) ∨
            (oversizeB docs[i] = false ∧ f docs[i].url = Except.ok () ∧
              d' = { docs[i] with localPath := some (mk docs[i]) }) ∨
            (oversizeB docs[i] = false ∧ ∃ m, f docs[i].url = Except.error m ∧
              d' = { docs[i] with error := some m })) := by
  rw [downloadDocuments_eq]
  constructor
  · simp
  · intro i hi
    refine ⟨(downloadOne f mk docs[i]).1, ?_, ?_⟩
    · rw [List.getElem?_map, List.getElem?_eq_getElem hi]
      rfl
    · by_cases hov : oversizeB docs[i]
      · exact Or.inl ⟨hov, by simp [downloadOne, hov]⟩
      · cases hfd : f docs[i].url with
        | ok u =>
          exact Or.inr (Or.inl ⟨by simpa using hov, rfl,
            by simp [downloadOne, hov, hfd]⟩)
        | error m =>
          exact Or.inr (Or.inr ⟨by simpa using hov, m, rfl,
            by simp [downloadOne, hov, hfd]⟩)

/-- Witness for `C10_download_shape` at a one-descriptor batch. -/
theorem C10_witness :
    (downloadDocuments (fun _ => Except.error "HTTP error 404: Not Found") (fun _ => "p")
          [{ title := "Doc", url := "https://ex.com/d.pdf" }]).1.length = 1 ∧
      ∃ d', (downloadDocuments (fun _ => Except.error "HTTP error 404: Not Found")
            (fun _ => "p") [{ title := "Doc", url := "https://ex.com/d.pdf" }]).1[0]? =
          some d' ∧
        ((oversizeB ([{ title := "Doc", url := "https://ex.com/d.pdf" }] : List PdfDoc)[0]
              = true ∧
            d' = { ([{ title := "Doc", url := "https://ex.com/d.pdf" }] : List PdfDoc)[0] with
                    skipped := true, reason := some "File too large" }) ∨
          (oversizeB ([{ title := "Doc", url := "https://ex.com/d.pdf" }] : List PdfDoc)[0]
              = false ∧
            (fun (_ : String) => Except.error (ε := String) (α := Unit)
                "HTTP error 404: Not Found") "https://ex.com/d.pdf" = Except.ok () ∧
            d' = { ([{ title := "Doc", url := "https://ex.com/d.pdf" }] : List PdfDoc)[0] with
                    localPath := some "p" }) ∨
          (oversizeB ([{ title := "Doc", url := "https://ex.com/d.pdf" }] : List PdfDoc)[0]
              = false ∧
            ∃ m, (fun (_ : String) => Except.error (ε := String) (α := Unit)
                "HTTP error 404: Not Found") "https://ex.com/d.pdf" = Except.error m ∧
              d' = { ([{ title := "Doc", url := "https://ex.com/d.pdf" }] : List PdfDoc)[0] with
                      error := some m })) :=
  ⟨(C10_download_shape _ _ _).1,
    (C10_download_shape (fun _ => Except.error "HTTP error 404: Not Found") (fun _ => "p")
        [{ title := "Doc", url := "https://ex.com/d.pdf" }]).2 0 (by decide)⟩

/-!
## Claim C9: the vectorizer
-/

theorem vectorizeBatch_all_ok (client : Option Unit)
    (callEmb : String → Except String (List Float))
    (upsert : String → List Float → Except String Unit)
    (hup : ∀ i v, upsert i v = Except.ok ()) :
    ∀ cs : List VChunk, vectorizeBatch client callEmb upsert cs = (cs.length, []) := by
  intro cs
  induction cs with
  | nil => rfl
  | cons c t ih => simp [vectorizeBatch, ih, hup]

theorem vectorizeLoop_all_ok (client : Option Unit)
    (callEmb : String → Except String (List Float))
    (upsert : String → List Float → Except String Unit)
    (hup : ∀ i v, upsert i v = Except.ok ()) :
    ∀ (n : Nat) (cs : List VChunk), cs.length ≤ n →
      vectorizeLoop client callEmb upsert cs = (cs.length, []) := by
  intro n
  induction n with
  | zero =>
    intro cs h
    have hnil : cs = [] := List.length_eq_zero.mp (Nat.le_zero.mp h)
    subst hnil
    rw [vectorizeLoop]
    rfl
  | succ n ih =>
    intro cs h
    cases cs with
    | nil =>
      rw [vectorizeLoop]
      rfl
    | cons c t =>
      rw [vectorizeLoop, vectorizeBatch_all_ok client callEmb upsert hup,
        ih ((c :: t).drop VEC_BATCH_SIZE)
          (by
            simp only [VEC_BATCH_SIZE, List.length_drop, List.length_cons] at h ⊢
            omega)]
      simp only [Prod.mk.injEq, List.length_take, List.length_drop, List.length_cons,
        VEC_BATCH_SIZE, List.append_nil]
      constructor
      · omega
      · trivial

/--
**C9.**  When the embedding client is uninitialised or the embedding
call fails, `generateEmbedding` returns the zero vector of dimension
1536 instead of raising; consequently a chunk whose embedding fails is
still upserted and the vectorization batch completes with every chunk
counted as a success and no error entries.
-/
theorem C9_embedding_fallback (client : Option Unit)
    (callEmb : String → Except String (List Float)) (text : String) (e : String)
    (upsert : String → List Float → Except String Unit) (chunks : List VChunk)
    (hfail : client = none ∨ callEmb text = Except.error e)
    (hup : ∀ i v, upsert i v = Except.ok ()) :
    generateEmbedding client callEmb text = List.replicate 1536 (0 : Float) ∧
      (generateEmbedding client callEmb text).length = 1536 ∧
      vectorizeChunks (some ()) client callEmb upsert chunks = (chunks.length, []) := by
  have hzero : generateEmbedding client callEmb text = List.replicate 1536 (0 : Float) := by
    rcases hfail with hnone | herr
    · rw [hnone]
      rfl
    · cases client with
      | none => rfl
      | some u => simp [generateEmbedding, herr]
  refine ⟨hzero, ?_, ?_⟩
  · rw [hzero, List.length_replicate]
  · unfold vectorizeChunks
    exact vectorizeLoop_all_ok client callEmb upsert hup chunks.length chunks (Nat.le_refl _)

/-- Witness for `C9_embedding_fallback` at a failing embedding call. -/
theorem C9_witness :
    (((none : Option Unit) = none ∨
          (fun (_ : String) => Except.error (ε := String) (α := List Float) "boom") "text"
            = Except.error "boom") ∧
        ∀ (i : String) (v : List Float),
          (fun (_ : String) (_ : List Float) => Except.ok (ε := String) ()) i v
            = Except.ok ()) ∧
      generateEmbedding none
          (fun _ => Except.error (ε := String) (α := List Float) "boom") "text"
        = List.replicate 1536 (0 : Float) ∧
      (generateEmbedding none
          (fun _ => Except.error (ε := String) (α := List Float) "boom") "text").length
        = 1536 ∧
      vectorizeChunks (some ()) none
          (fun _ => Except.error (ε := String) (α := List Float) "boom")
          (fun _ _ => Except.ok ()) [⟨"c1", "body one"⟩, ⟨"c2", "body two"⟩]
        = (2, []) :=
  ⟨⟨Or.inl rfl, fun _ _ => rfl⟩,
    C9_embedding_fallback none _ "text" "boom" _ [⟨"c1", "body one"⟩, ⟨"c2", "body two"⟩]
      (Or.inl rfl) (fun _ _ => rfl)⟩

/-!
## Claim C3
-/

theorem take_drop_inf (text : List Char) (a b : Nat) : (text.drop a).take b <:+: text :=
  ⟨text.take a, (text.drop a).drop b, by
    rw [List.append_assoc, List.take_append_drop, List.take_append_drop]⟩

theorem drop_inf (text : List Char) (a : Nat) : text.drop a <:+: text :=
  (List.drop_suffix a text).isInfix

theorem nlJoin_concat :
    ∀ (qs : List (List Char)) (q : List Char), qs ≠ [] →
      nlJoin (qs ++ [q]) = nlJoin qs ++ '\n' :: '\n' :: trimL q := by
  intro qs
  induction qs with
  | nil => intro q h; exact absurd rfl h
  | cons a t ih =>
    intro q _
    cases t with
    | nil => rfl
    | cons b l =>
      have h1 : nlJoin ((a :: b :: l) ++ [q]) = trimL a ++ '\n' :: '\n' :: nlJoin ((b :: l) ++ [q]) := by
        rfl
      rw [h1, ih q (by simp)]
      simp [nlJoin]

theorem buildSections_inf (text : List Char) :
    ∀ ms : List (Nat × Nat), ∀ s ∈ buildSections text ms,
      ∃ u, u <:+: text ∧ s = trimL u := by
  intro ms
  induction ms with
  | nil => intro s hs; simp [buildSections] at hs
  | cons m rest ih =>
    intro s hs
    rw [buildSections] at hs
    rcases List.mem_append.mp hs with hmem | hmem
    · by_cases h100 :
        100 ≤ (trimL ((text.drop m.1).take (nextBound text rest - m.1))).length
      · rw [if_pos h100] at hmem
        simp at hmem
        exact ⟨_, take_drop_inf text m.1 _, hmem⟩
      · rw [if_neg h100] at hmem
        simp at hmem
    · exact ih s hmem

theorem trySectionPatterns_inf (text : List Char) :
    ∀ pats : List RE, ∀ s ∈ trySectionPatterns text pats,
      ∃ u, u <:+: text ∧ s = trimL u := by
  intro pats
  induction pats with
  | nil => intro s hs; simp [trySectionPatterns] at hs
  | cons p ps ih =>
    intro s hs
    rw [trySectionPatterns] at hs
    by_cases hm : 1 < (allMatches p text).length
    · rw [if_pos hm] at hs
      by_cases hb : 0 < (buildSections text (allMatches p text)).length
      · rw [if_pos hb] at hs
        exact buildSections_inf text _ s hs
      · rw [if_neg hb] at hs
        exact ih s hs
    · rw [if_neg hm] at hs
      exact ih s hs

theorem piecesFrom_inf (text : List Char) :
    ∀ (ms : List (Nat × Nat)) (pos : Nat), ∀ p ∈ piecesFrom text pos ms, p <:+: text := by
  intro ms
  induction ms with
  | nil =>
    intro pos p hp
    simp [piecesFrom] at hp
    rw [hp]
    exact drop_inf text pos
  | cons m rest ih =>
    intro pos p hp
    obtain ⟨a, l⟩ := m
    rw [piecesFrom] at hp
    rcases List.mem_cons.mp hp with h | h
    · rw [h]
      exact take_drop_inf text pos _
    · exact ih (a + l) p h

theorem chunksFrom_content_mem :
    ∀ (i : Nat) (ss : List (List Char)) (c : PChunk),
      c ∈ chunksFrom i ss → c.content ∈ ss := by
  intro i ss
  induction ss generalizing i with
  | nil => intro c hc; simp [chunksFrom] at hc
  | cons s t ih =>
    intro c hc
    rw [chunksFrom] at hc
    rcases List.mem_cons.mp hc with h | h
    · rw [h]
      exact List.mem_cons_self _ _
    · exact List.mem_cons_of_mem _ (ih (i + 1) c h)

theorem trimL_nl_nl (cs : List Char) : trimL ('\n' :: '\n' :: cs) = trimL cs := by
  rw [trimL_cons_ws _ _ (by decide), trimL_cons_ws _ _ (by decide)]

theorem accumulate_spec (text : List Char) :
    ∀ (paras : List (List Char)) (cur : List Char),
      (∀ p ∈ paras, p <:+: text) →
      (cur = [] ∨ ∃ qs, qs ≠ [] ∧ (∀ q ∈ qs, q <:+: text) ∧
        (cur = nlJoin qs ∨ cur = '\n' :: '\n' :: nlJoin qs)) →
      ∀ s ∈ accumulate paras cur,
        ∃ ps, ps ≠ [] ∧ (∀ p ∈ ps, p <:+: text) ∧ s = trimL (nlJoin ps) := by
  intro paras
  induction paras with
  | nil =>
    intro cur hp hinv s hs
    by_cases h100 : 100 ≤ cur.length
    · rw [accumulate, if_pos h100] at hs
      simp at hs
      rcases hinv with hnil | ⟨qs, hne, hinf, hcur⟩
      · rw [hnil] at h100
        simp at h100
      · rcases hcur with hcur | hcur
        · exact ⟨qs, hne, hinf, by rw [hs, hcur]⟩
        · exact ⟨qs, hne, hinf, by rw [hs, hcur, trimL_nl_nl]⟩
    · rw [accumulate, if_neg h100] at hs
      simp at hs
  | cons para ps ih =>
    intro cur hp hinv s hs
    have hptail : ∀ p ∈ ps, p <:+: text :=
      fun p h => hp p (List.mem_cons_of_mem _ h)
    have hpara : para <:+: text := hp para (List.mem_cons_self _ _)
    by_cases ht0 : (trimL para).length = 0
    · rw [accumulate] at hs
      simp only [ht0, if_true, if_pos rfl] at hs
      exact ih cur hptail hinv s hs
    · by_cases hover : 1000 < cur.length + (trimL para).length
      · rw [accumulate] at hs
        simp only [ht0, hover, if_false, if_true, if_neg ht0, if_pos hover] at hs
        rcases List.mem_append.mp hs with hmem | hmem
        · by_cases h100 : 100 ≤ cur.length
          · rw [if_pos h100] at hmem
            simp at hmem
            rcases hinv with hnil | ⟨qs, hne, hinf, hcur⟩
            · rw [hnil] at h100
              simp at h100
            · rcases hcur with hcur | hcur
              · exact ⟨qs, hne, hinf, by rw [hmem, hcur]⟩
              · exact ⟨qs, hne, hinf, by rw [hmem, hcur, trimL_nl_nl]⟩
          · rw [if_neg h100] at hmem
            simp at hmem
        · refine ih (trimL para) hptail (Or.inr ⟨[para], by simp, ?_, Or.inl rfl⟩) s hmem
          intro q hq
          simp at hq
          rw [hq]
          exact hpara
      · rw [accumulate] at hs
        simp only [ht0, hover, if_neg ht0, if_neg hover] at hs
        refine ih (cur ++ '\n' :: '\n' :: trimL para) hptail (Or.inr ?_) s hs
        rcases hinv with hnil | ⟨qs, hne, hinf, hcur⟩
        · refine ⟨[para], by simp, ?_, Or.inr (by rw [hnil]; rfl)⟩
          intro q hq
          simp at hq
          rw [hq]
          exact hpara
        · refine ⟨qs ++ [para], by simp, ?_, ?_⟩
          · intro q hq
            rcases List.mem_append.mp hq with h | h
            · exact hinf q h
            · simp at h
              rw [h]
              exact hpara
          · rcases hcur with hcur | hcur
            · exact Or.inl (by rw [hcur, nlJoin_concat qs para hne])
            · refine Or.inr ?_
              rw [hcur, nlJoin_concat qs para hne]
              simp

/--
**C3 (amended).**  Every chunk content is derived from the input text
alone: it is the trim of a `"\n\n"`-join of trimmed contiguous
substrings of the input (a single trimmed substring on the
section-pattern path).  The converse direction of the claim fails:
input text *can* be absent from every chunk — the prefix before the
first structural match and any section or paragraph buffer shorter
than `minChunkSize` are silently dropped.
-/
theorem C3_chunk_provenance (text : List Char) (c : PChunk)
    (hc : c ∈ splitIntoChunks text) :
    ∃ ps, ps ≠ [] ∧ (∀ p ∈ ps, p <:+: text) ∧ c.content = trimL (nlJoin ps) := by
  simp only [splitIntoChunks] at hc
  by_cases hlen : (trySectionPatterns text sectionPatterns).length ≤ 1
  · rw [if_pos hlen] at hc
    have hmem := chunksFrom_content_mem 0 _ c hc
    refine accumulate_spec text (paragraphsOf text) [] ?_ (Or.inl rfl) _ hmem
    intro p hp
    exact piecesFrom_inf text _ 0 p hp
  · rw [if_neg hlen] at hc
    have hmem := chunksFrom_content_mem 0 _ c hc
    obtain ⟨u, hu, hsu⟩ := trySectionPatterns_inf text sectionPatterns _ hmem
    refine ⟨[u], by simp, ?_, ?_⟩
    · intro q hq
      simp at hq
      rw [hq]
      exact hu
    · rw [hsu]
      show trimL u = trimL (nlJoin [u])
      rw [show nlJoin [u] = trimL u from rfl, trimL_idem]

set_option maxRecDepth 20000 in
/--
**C3, counterexample.**  The claim says no section text of the input
is absent from every chunk.  In the text below the 40-character
`z`-preamble before the first `\nSECTION` marker is dropped entirely:
sections start at the first structural match, so no chunk contains it.
-/
theorem C3_counterexample :
    (List.replicate 40 'z' <:+:
        (List.replicate 40 'z' ++ "\nSECTION 1 ".toList ++ List.replicate 110 'a' ++
          "\nSECTION 2 ".toList ++ List.replicate 110 'a')) ∧
      List.replicate 40 'z' ≠ [] ∧
      ∀ c ∈ splitIntoChunks
          (List.replicate 40 'z' ++ "\nSECTION 1 ".toList ++ List.replicate 110 'a' ++
            "\nSECTION 2 ".toList ++ List.replicate 110 'a'),
        ¬ (List.replicate 40 'z' <:+: c.content) := by
  refine ⟨by decide, by decide, by decide⟩

set_option maxRecDepth 20000 in
/-- Witness for `C3_chunk_provenance` at a 150-character single paragraph. -/
theorem C3_witness :
    (chunkOfSection 0 (List.replicate 150 'm') ∈ splitIntoChunks (List.replicate 150 'm')) ∧
      ∃ ps, ps ≠ [] ∧ (∀ p ∈ ps, p <:+: List.replicate 150 'm') ∧
        (chunkOfSection 0 (List.replicate 150 'm')).content = trimL (nlJoin ps) :=
  ⟨by decide, C3_chunk_provenance _ _ (by decide)⟩

end SB369
